import Mathlib

/-!
Verification of the llvm-return-stack repository's core against its design
specification.  Two components are embedded:

* `MCAB` — the llvm-mca `Backend` cycle orchestrator
  (src/tools/llvm-mca/Backend.cpp), with the dispatch stage and scheduler
  kept abstract (the backend only uses their interfaces) and the fetch
  stage given the in-order trace semantics the spec describes.

* `RSS` — the `ReturnStackSanitizer` IR pass
  (src/lib/Transforms/ReturnStackSanitizer/ReturnStackSanitizer.cpp), over
  a small model of LLVM modules: functions are indexed by `FnId`, call
  instructions hold the callee's index, and renaming a callee updates the
  single module-level `Func` record, exactly as `setName` on the callee
  `Function` object does.
-/

namespace MCAB

/-- An in-flight instruction reference (`InstRef`); the backend treats it as
an opaque value, so a natural number stands for it. -/
abbrev InstRef := Nat

/-- A value standing for one `HWEventListener` pointer. -/
abbrev ListenerId := Nat

variable {δ χ : Type}

/-- The dispatch-stage interface as used by `Backend.cpp`: `isReady` (the
drain signal), the `preExecute` reservation hook, and `execute`, which
returns the updated stage state on acceptance and `none` on rejection
(so a rejected handoff leaves the stage state unchanged). -/
structure DispatchStage (δ : Type) where
  isReady : δ → Bool
  preExecute : δ → δ
  execute : δ → InstRef → Option δ

/-- The scheduler interface as used by `Backend.cpp`: `HWS->cycleEvent()`. -/
structure Scheduler (χ : Type) where
  cycleEvent : χ → χ

/-- The state owned by `Backend`: the fetch stage's remaining trace, the
dispatch-stage state, the scheduler state, the cycle counter, and the
listener registry. -/
structure BackendState (δ χ : Type) where
  fetchTrace : List InstRef
  dispatch : δ
  sched : χ
  cycles : Nat
  listeners : List ListenerId

/-- Modelled from the spec: `FetchStage::isReady` (FetchStage.cpp is not
under src); true iff the instruction trace is not exhausted (§4.3). -/
def fetchIsReady (t : List InstRef) : Bool := !t.isEmpty

/-- Observable steps of one `Backend::runCycle` call, in execution order. -/
inductive Action where
  | cycleBegin (c : Nat)
  | dispatchPreExec
  | schedCycleEvent
  | produce (r : InstRef)
  | accept (r : InstRef)
  | reject (r : InstRef)
  | commit (r : InstRef)
  | cycleEnd (c : Nat)
deriving DecidableEq, Repr

/-- Whether an action is the cycle-begin notification. -/
def Action.isCycleBegin : Action → Bool
  | .cycleBegin _ => true
  | _ => false

/-- The cycle number carried by a cycle-begin action, if any. -/
def Action.beginNum : Action → Option Nat
  | .cycleBegin c => some c
  | _ => none

/-- Whether an action belongs to the fetch→dispatch handoff inner loop. -/
def Action.isHandoff : Action → Bool
  | .produce _ => true
  | .accept _ => true
  | .reject _ => true
  | .commit _ => true
  | _ => false

/-- Number of cycle-begin actions in a trace. -/
def countBegins (l : List Action) : Nat := l.countP Action.isCycleBegin

/-- The cycle numbers announced by cycle-begin actions, in order. -/
def beginNums (l : List Action) : List Nat := l.filterMap Action.beginNum

/-- The consecutive naturals `s, s+1, ..., s+n-1`. -/
def natsFrom : Nat → Nat → List Nat
  | _, 0 => []
  | s, n + 1 => s :: natsFrom (s + 1) n

/-- The fetch→dispatch inner loop of `Backend::runCycle` (Backend.cpp
lines 44–48): while `Fetch->execute(IR)` produces a reference, offer it to
`Dispatch->execute`; on rejection break, on acceptance call
`Fetch->postExecute` (modelled from the spec as advancing the trace
pointer, §4.3) and continue.  Returns the remaining trace, the dispatch
state, and the handoff actions performed. -/
def innerLoop (D : DispatchStage δ) : List InstRef → δ → List InstRef × δ × List Action
  | [], d => ([], d, [])
  | r :: t, d =>
    match D.execute d r with
    | none => (r :: t, d, [Action.produce r, Action.reject r])
    | some d' =>
      let p := innerLoop D t d'
      (p.1, p.2.1, Action.produce r :: Action.accept r :: Action.commit r :: p.2.2)

/-- `Backend::runCycle(Cycle)` (Backend.cpp lines 37–51): notify cycle
begin, call `Dispatch->preExecute`, advance the scheduler with
`HWS->cycleEvent`, run the fetch→dispatch inner loop, notify cycle end.
Returns the updated state and the ordered trace of the steps taken. -/
def runCycle (D : DispatchStage δ) (S : Scheduler χ) (c : Nat) (s : BackendState δ χ) :
    BackendState δ χ × List Action :=
  let d1 := D.preExecute s.dispatch
  let x1 := S.cycleEvent s.sched
  let p := innerLoop D s.fetchTrace d1
  ({ s with fetchTrace := p.1, dispatch := p.2.1, sched := x1 },
    Action.cycleBegin c :: Action.dispatchPreExec :: Action.schedCycleEvent ::
      (p.2.2 ++ [Action.cycleEnd c]))

/-- The loop condition of `Backend::run` (Backend.cpp line 33):
`Fetch->isReady() || !Dispatch->isReady()`. -/
def condHolds (D : DispatchStage δ) (s : BackendState δ χ) : Bool :=
  fetchIsReady s.fetchTrace || !D.isReady s.dispatch

/-- `Backend::run` (Backend.cpp lines 32–35):
`while (Fetch->isReady() || !Dispatch->isReady()) runCycle(Cycles++);`,
with an explicit fuel bound so the model is total; `runCycle` receives the
pre-increment value of the counter, as the post-increment expression does.
Returns the final state and the concatenated cycle traces. -/
def run (D : DispatchStage δ) (S : Scheduler χ) :
    Nat → BackendState δ χ → BackendState δ χ × List Action
  | 0, s => (s, [])
  | f + 1, s =>
    if condHolds D s then
      let p := runCycle D S s.cycles { s with cycles := s.cycles + 1 }
      let q := run D S f p.1
      (q.1, p.2 ++ q.2)
    else (s, [])

/-- Modelled from the spec: Backend construction (Backend.h is not under
src); the cycle counter starts at zero for a fresh run and the listener
registry starts empty (§3, §4.7). -/
def mkBackend (t : List InstRef) (d : δ) (x : χ) : BackendState δ χ :=
  { fetchTrace := t, dispatch := d, sched := x, cycles := 0, listeners := [] }

/-- `Backend::addEventListener` (Backend.cpp lines 27–30):
`if (Listener) Listeners.insert(Listener);`.  The listener container is
declared in Backend.h, which is not under src; it is modelled from the
spec as a registration-ordered duplicate-free list (§4.8), so `insert` is
append-if-absent and a null pointer is `none`. -/
def addEventListener (o : Option ListenerId) (s : BackendState δ χ) : BackendState δ χ :=
  match o with
  | none => s
  | some l => if l ∈ s.listeners then s else { s with listeners := s.listeners ++ [l] }

/-- Payloads delivered to listeners, one per `HWEventListener` callback.
The event structures themselves are opaque to the backend; numbers stand
for them. -/
inductive HWEvent where
  | cycleBegin
  | cycleEnd
  | instructionEvent (e : Nat)
  | stallEvent (e : Nat)
  | resourceAvailable (rr : Nat × Nat)
  | reservedBuffers (bs : List Nat)
  | releasedBuffers (bs : List Nat)
deriving DecidableEq, Repr

/-- `Backend::notifyCycleBegin` (Backend.cpp lines 53–57): call
`onCycleBegin` on every registered listener, in registry order.  The
result is the delivery log. -/
def notifyCycleBegin (s : BackendState δ χ) : List (ListenerId × HWEvent) :=
  s.listeners.map fun l => (l, HWEvent.cycleBegin)

/-- `Backend::notifyInstructionEvent` (Backend.cpp lines 59–62). -/
def notifyInstructionEvent (s : BackendState δ χ) (e : Nat) : List (ListenerId × HWEvent) :=
  s.listeners.map fun l => (l, HWEvent.instructionEvent e)

/-- `Backend::notifyStallEvent` (Backend.cpp lines 64–67). -/
def notifyStallEvent (s : BackendState δ χ) (e : Nat) : List (ListenerId × HWEvent) :=
  s.listeners.map fun l => (l, HWEvent.stallEvent e)

/-- `Backend::notifyResourceAvailable` (Backend.cpp lines 69–74). -/
def notifyResourceAvailable (s : BackendState δ χ) (rr : Nat × Nat) :
    List (ListenerId × HWEvent) :=
  s.listeners.map fun l => (l, HWEvent.resourceAvailable rr)

/-- `Backend::notifyReservedBuffers` (Backend.cpp lines 76–79). -/
def notifyReservedBuffers (s : BackendState δ χ) (bs : List Nat) :
    List (ListenerId × HWEvent) :=
  s.listeners.map fun l => (l, HWEvent.reservedBuffers bs)

/-- `Backend::notifyReleasedBuffers` (Backend.cpp lines 81–84). -/
def notifyReleasedBuffers (s : BackendState δ χ) (bs : List Nat) :
    List (ListenerId × HWEvent) :=
  s.listeners.map fun l => (l, HWEvent.releasedBuffers bs)

/-- `Backend::notifyCycleEnd` (Backend.cpp lines 86–90). -/
def notifyCycleEnd (s : BackendState δ χ) : List (ListenerId × HWEvent) :=
  s.listeners.map fun l => (l, HWEvent.cycleEnd)

/-- The per-reference handoff actions of a fully accepted run of the inner
loop over the given references. -/
def handoffActs (l : List InstRef) : List Action :=
  (l.map fun r => [Action.produce r, Action.accept r, Action.commit r]).flatten

end MCAB

namespace RSS

/-- Index of a `Function` object inside its `Module`; call instructions
store the callee by this index, mirroring the pointer to the callee
`Function` held by a `CallInst`. -/
abbrev FnId := Nat

/-- The instruction shapes `SetjmpSanitizer` distinguishes: PHI nodes,
returns, direct calls (`getCalledFunction()` non-null, holding the callee
index), the two marker intrinsic calls it inserts, and everything else
(including indirect calls, whose `getCalledFunction()` is null). -/
inductive Instr where
  | phi
  | ret
  | call (callee : Option FnId)
  | callPush (marker : Nat)
  | callPop
  | other
deriving DecidableEq, Repr

/-- A basic block: its instruction list. -/
structure BasicBlock where
  insts : List Instr
deriving DecidableEq, Repr

/-- An LLVM `Function` as the pass sees it: name, presence of the
`ReturnStack` attribute, whether it is only a declaration, and its body. -/
structure Func where
  name : String
  returnStackAttr : Bool
  isDecl : Bool
  body : List BasicBlock
deriving DecidableEq, Repr

/-- An LLVM `Module`: the list of its `Function` objects. -/
structure Module where
  funcs : List Func
deriving DecidableEq, Repr

/-- Whether an instruction is a PHI node. -/
def Instr.isPhi : Instr → Bool
  | .phi => true
  | _ => false

/-- Whether an instruction is a `ReturnInst`. -/
def Instr.isRet : Instr → Bool
  | .ret => true
  | _ => false

/-- Whether an instruction is a call to the push-marker intrinsic. -/
def Instr.isPush : Instr → Bool
  | .callPush _ => true
  | _ => false

/-- Whether an instruction is a call to the pop-marker intrinsic. -/
def Instr.isPop : Instr → Bool
  | .callPop => true
  | _ => false

/-- Whether an instruction is a direct call to the function at index `c`. -/
def Instr.isCallTo (c : FnId) : Instr → Bool
  | .call (some c') => c' == c
  | _ => false

/-- `CF->getName()` for the function object at index `c` of the module. -/
def Module.nameOf (M : Module) (c : FnId) : Option String :=
  (M.funcs[c]?).map Func.name

/-- Replace the element at an index with its image under `g` (other
positions unchanged). -/
def modifyIdx (g : Func → Func) : Nat → List Func → List Func
  | _, [] => []
  | 0, F :: l => g F :: l
  | n + 1, F :: l => F :: modifyIdx g n l

/-- `CF->setName(n)`: rename the module-level function object at index
`c`; all call sites referring to `c` observe the new name. -/
def Module.setName (M : Module) (c : FnId) (n : String) : Module :=
  ⟨modifyIdx (fun F => { F with name := n }) c M.funcs⟩

/-- Replace the body of the function at index `c`. -/
def Module.setBody (M : Module) (c : FnId) (b : List BasicBlock) : Module :=
  ⟨modifyIdx (fun F => { F with body := b }) c M.funcs⟩

/-- The body of the function at index `c` of the module (empty when the
index is out of range). -/
def Module.bodyOf (M : Module) (c : FnId) : List BasicBlock :=
  ((M.funcs[c]?).map Func.body).getD []

/-- The longjmp-family name substitution of the rename loop
(ReturnStackSanitizer.cpp lines 104–111). -/
def longjmpSubst (n : String) : Option String :=
  if n = "longjmp" then some "safe_longjmp"
  else if n = "siglongjmp" then some "safe_siglongjmp"
  else none

/-- The setjmp-family name substitution of the rename loop
(ReturnStackSanitizer.cpp lines 116–123). -/
def setjmpSubst (n : String) : Option String :=
  if n = "_setjmp" then some "_safe_setjmp"
  else if n = "__sigsetjmp" then some "__safe_sigsetjmp"
  else none

/-- The combined unsafe→safe substitution of the four rewritten names. -/
def unsafeSubst (n : String) : Option String :=
  match setjmpSubst n with
  | some n' => some n'
  | none => longjmpSubst n

/-- One iteration of a substitution loop: re-read the callee's current
name (`CF->getName()` inside the loop body) and rename it when the
substitution applies. -/
def renameStep (σ : String → Option String) (M : Module) (c : FnId) : Module :=
  match M.nameOf c with
  | some n =>
    match σ n with
    | some n' => M.setName c n'
    | none => M
  | none => M

/-- One substitution loop over the collected call sites.  The callee's
current name is re-read at every site, exactly as `CF->getName()` is
inside the loops of the source, so a callee shared by several sites is
renamed once and skipped afterwards. -/
def renameCallees (σ : String → Option String) : Module → List FnId → Module
  | M, [] => M
  | M, c :: cs => renameCallees σ (renameStep σ M c) cs

/-- Name test for the setjmp family (scan loop, line 92). -/
def isSetjmpName (n : String) : Bool := n = "_setjmp" || n = "__sigsetjmp"

/-- Name test for the longjmp family (scan loop, line 94). -/
def isLongjmpName (n : String) : Bool := n = "longjmp" || n = "siglongjmp"

/-- The callee index of a direct call whose callee's current name
satisfies `p`; `none` otherwise. -/
def calleeIfMatch (M : Module) (p : String → Bool) : Instr → Option FnId
  | .call (some c) =>
    match M.nameOf c with
    | some n => if p n then some c else none
    | none => none
  | _ => none

/-- Call sites of one basic block whose callee name satisfies `p`. -/
def blockCallees (M : Module) (p : String → Bool) (bb : BasicBlock) : List FnId :=
  bb.insts.filterMap (calleeIfMatch M p)

/-- Call sites of a whole function whose callee name satisfies `p`, in
scan order (the collection loop of lines 86–99). -/
def funcCallees (M : Module) (p : String → Bool) (F : Func) : List FnId :=
  (F.body.map (blockCallees M p)).flatten

/-- `SetjmpCallSites` collected by the scan loop. -/
def setjmpCallSites (M : Module) (F : Func) : List FnId :=
  funcCallees M isSetjmpName F

/-- `LongjmpCallSites` collected by the scan loop. -/
def longjmpCallSites (M : Module) (F : Func) : List FnId :=
  funcCallees M isLongjmpName F

/-- All instructions of a function, in block order. -/
def allInsts (F : Func) : List Instr :=
  (F.body.map BasicBlock.insts).flatten

/-- Position of the first non-PHI instruction of a block
(`getFirstNonPHI`), if any. -/
def firstNonPhiIdx : List Instr → Option Nat
  | [] => none
  | i :: l => if i.isPhi then (firstNonPhiIdx l).map (· + 1) else some 0

/-- `EntryInstr` of lines 80–84: the first non-PHI instruction of the
entry block, guarded by `!F.empty()`; `none` when the function has no
body or the entry block has no non-PHI instruction. -/
def entryInstrIdx (F : Func) : Option Nat :=
  match F.body with
  | [] => none
  | bb :: _ => firstNonPhiIdx bb.insts

/-- Insert a call to the pop-marker intrinsic immediately before every
return instruction of a block (lines 139–145). -/
def insertPops (l : List Instr) : List Instr :=
  (l.map fun i => if i.isRet then [Instr.callPop, i] else [i]).flatten

/-- The marker-intrinsic insertion of lines 125–145: one push of `m`
before the entry block's first non-PHI instruction (at position `idx`),
then one pop before every return instruction of the function. -/
def sanitizeBody (m : Nat) (idx : Nat) : List BasicBlock → List BasicBlock
  | [] => []
  | bb :: rest =>
    ⟨insertPops (bb.insts.take idx ++ Instr.callPush m :: bb.insts.drop idx)⟩ ::
      rest.map fun b => ⟨insertPops b.insts⟩

/-- The modulus of the 64-bit unsigned marker counter. -/
def U64 : Nat := 2 ^ 64

/-- `ReturnStackMarker--` with `uint64_t` wraparound (line 131). -/
def decMarker (m : Nat) : Nat := (m + (U64 - 1)) % U64

/-- The initial value of the static `ReturnStackMarker` (line 55). -/
def markerStart : Nat := 0xfffffffffffffffe

/-- `ReturnStackSanitizer::SetjmpSanitizer` (lines 65–148) acting on the
function at index `fid` of the module, with the static marker counter
threaded explicitly.  Result: the `Changed` return value, the updated
module, and the updated marker counter. -/
def SetjmpSanitizer (marker : Nat) (M : Module) (fid : FnId) : Bool × Module × Nat :=
  match M.funcs[fid]? with
  | none => (false, M, marker)
  | some F =>
    if F.isDecl then (false, M, marker)
    else if !F.returnStackAttr then (false, M, marker)
    else
      match entryInstrIdx F with
      | none => (false, M, marker)
      | some idx =>
        let sj := setjmpCallSites M F
        let lj := longjmpCallSites M F
        let changed := !(sj.isEmpty && lj.isEmpty)
        let M1 := renameCallees longjmpSubst M lj
        if sj.isEmpty then (changed, M1, marker)
        else
          let M2 := renameCallees setjmpSubst M1 sj
          let M3 := M2.setBody fid (sanitizeBody marker idx F.body)
          (changed, M3, decMarker marker)

/-- `ReturnStackSanitizer::runOnFunction` (lines 61–63): delegates to
`SetjmpSanitizer`. -/
def runOnFunction (marker : Nat) (M : Module) (fid : FnId) : Bool × Module × Nat :=
  SetjmpSanitizer marker M fid

/-- Total number of instructions satisfying `f` in a body. -/
def bodyCountP (f : Instr → Bool) (b : List BasicBlock) : Nat :=
  (b.map fun bb => bb.insts.countP f).sum

end RSS

namespace MCAB

/-- A concrete dispatch stage over a capacity counter, used to evaluate
the backend theorems on closed inputs: it accepts while capacity remains,
decrementing it, and reports ready while capacity is positive. -/
def capDispatch : DispatchStage Nat where
  isReady := fun d => decide (0 < d)
  preExecute := fun d => d
  execute := fun d _ => if d = 0 then none else some (d - 1)

/-- A trivial scheduler state for closed evaluation. -/
def unitSched : Scheduler Unit where
  cycleEvent := fun u => u

/-- A concrete backend state with work still pending. -/
def sampleBackend : BackendState Nat Unit :=
  { fetchTrace := [10, 11, 12], dispatch := 2, sched := (), cycles := 3,
    listeners := [3, 1, 2] }

/-- A concrete backend state with the fetch trace exhausted and the
dispatch stage drained. -/
def drainedBackend : BackendState Nat Unit :=
  { fetchTrace := [], dispatch := 1, sched := (), cycles := 7, listeners := [] }

end MCAB

namespace RSS

/-- Declaration of `_setjmp`, as a callee of the sample module. -/
def setjmpFn : Func :=
  { name := "_setjmp", returnStackAttr := false, isDecl := true, body := [] }

/-- Declaration of `longjmp`, as a callee of the sample module. -/
def longjmpFn : Func :=
  { name := "longjmp", returnStackAttr := false, isDecl := false,
    body := [⟨[Instr.other]⟩] }

/-- A sample function with the `ReturnStack` attribute that calls both
`_setjmp` (function index 1) and `longjmp` (function index 2). -/
def mainFn : Func :=
  { name := "main", returnStackAttr := true, isDecl := false,
    body := [⟨[Instr.phi, Instr.call (some 1), Instr.other]⟩,
             ⟨[Instr.call (some 2), Instr.ret]⟩] }

/-- A sample module: `mainFn` at index 0, the two unsafe callees after it. -/
def sampleModule : Module := ⟨[mainFn, setjmpFn, longjmpFn]⟩

/-- A sample function that calls only `longjmp` (function index 2). -/
def ljOnlyFn : Func :=
  { name := "helper", returnStackAttr := true, isDecl := false,
    body := [⟨[Instr.call (some 2), Instr.ret]⟩] }

/-- A module whose attributed function has only a longjmp-family call. -/
def ljOnlyModule : Module := ⟨[ljOnlyFn, setjmpFn, longjmpFn]⟩

end RSS

namespace MCAB

theorem innerLoop_nil (D : DispatchStage δ) (d : δ) : innerLoop D [] d = ([], d, []) := rfl

theorem innerLoop_cons_reject (D : DispatchStage δ) (r : InstRef) (t : List InstRef) (d : δ)
    (h : D.execute d r = none) :
    innerLoop D (r :: t) d = (r :: t, d, [Action.produce r, Action.reject r]) := by
  simp [innerLoop, h]

theorem innerLoop_cons_accept (D : DispatchStage δ) (r : InstRef) (t : List InstRef) (d d' : δ)
    (h : D.execute d r = some d') :
    innerLoop D (r :: t) d =
      ((innerLoop D t d').1, (innerLoop D t d').2.1,
        Action.produce r :: Action.accept r :: Action.commit r :: (innerLoop D t d').2.2) := by
  simp [innerLoop, h]

theorem innerLoop_acts_handoff (D : DispatchStage δ) :
    ∀ (t : List InstRef) (d : δ), ∀ a ∈ (innerLoop D t d).2.2, a.isHandoff = true := by
  intro t
  induction t with
  | nil => intro d a ha; simp [innerLoop] at ha
  | cons r t ih =>
    intro d a ha
    cases h : D.execute d r with
    | none =>
      rw [innerLoop_cons_reject D r t d h] at ha
      simp only [List.mem_cons, List.mem_singleton, List.not_mem_nil, or_false] at ha
      rcases ha with rfl | rfl <;> rfl
    | some d' =>
      rw [innerLoop_cons_accept D r t d d' h] at ha
      simp only [List.mem_cons] at ha
      rcases ha with rfl | rfl | rfl | ha
      · rfl
      · rfl
      · rfl
      · exact ih d' a ha

theorem handoffActs_nil : handoffActs [] = [] := rfl

theorem handoffActs_cons (r : InstRef) (l : List InstRef) :
    handoffActs (r :: l) =
      Action.produce r :: Action.accept r :: Action.commit r :: handoffActs l := rfl

/-- C2: `Backend::runCycle` performs its five steps in a fixed order:
cycle-begin notification first, then `Dispatch->preExecute`, then
`HWS->cycleEvent`, then the fetch→dispatch inner loop (whose actions are
all handoff actions), and the cycle-end notification last. -/
theorem runCycle_phase_order (D : DispatchStage δ) (S : Scheduler χ) (c : Nat)
    (s : BackendState δ χ) :
    (runCycle D S c s).2 =
      Action.cycleBegin c :: Action.dispatchPreExec :: Action.schedCycleEvent ::
        ((innerLoop D s.fetchTrace (D.preExecute s.dispatch)).2.2 ++ [Action.cycleEnd c]) ∧
    ∀ a ∈ (innerLoop D s.fetchTrace (D.preExecute s.dispatch)).2.2, a.isHandoff = true :=
  ⟨rfl, innerLoop_acts_handoff D s.fetchTrace _⟩

/-- Witness for C2 on closed inputs: the concrete cycle trace has the
stated shape, and a concrete inner-loop action is a handoff action. -/
theorem runCycle_phase_order_witness :
    (runCycle capDispatch unitSched 3 sampleBackend).2 =
      Action.cycleBegin 3 :: Action.dispatchPreExec :: Action.schedCycleEvent ::
        ((innerLoop capDispatch sampleBackend.fetchTrace
            (capDispatch.preExecute sampleBackend.dispatch)).2.2 ++ [Action.cycleEnd 3]) ∧
    (Action.produce 10).isHandoff = true := by
  refine ⟨(runCycle_phase_order capDispatch unitSched 3 sampleBackend).1, ?_⟩
  exact (runCycle_phase_order capDispatch unitSched 3 sampleBackend).2
    (Action.produce 10) (by decide)

/-- C3: the inner loop dispatches a prefix of the fetch trace in fetch
order; every accepted reference is committed by `Fetch->postExecute`
(`commit`) immediately after acceptance, and a rejection ends the loop at
once, with no `commit` for the rejected reference and the trace pointer
left at it. -/
theorem inner_loop_handoff_protocol (D : DispatchStage δ) (t : List InstRef) (d : δ) :
    ∃ k, k ≤ t.length ∧
      (innerLoop D t d).1 = t.drop k ∧
      (((innerLoop D t d).2.2 = handoffActs (t.take k) ∧ t.drop k = []) ∨
        (∃ r rest, t.drop k = r :: rest ∧
          (innerLoop D t d).2.2 =
            handoffActs (t.take k) ++ [Action.produce r, Action.reject r])) := by
  induction t generalizing d with
  | nil => exact ⟨0, by simp [innerLoop, handoffActs]⟩
  | cons r t ih =>
    cases h : D.execute d r with
    | none =>
      refine ⟨0, by simp, ?_, Or.inr ⟨r, t, rfl, ?_⟩⟩ <;>
        simp [innerLoop_cons_reject D r t d h, handoffActs]
    | some d' =>
      obtain ⟨k, hk, hrem, hacts⟩ := ih d'
      refine ⟨k + 1, by simpa using Nat.succ_le_succ hk, ?_, ?_⟩
      · simpa [innerLoop_cons_accept D r t d d' h] using hrem
      · rcases hacts with ⟨he, hnil⟩ | ⟨r', rest, hdrop, he⟩
        · exact Or.inl ⟨by simp [innerLoop_cons_accept D r t d d' h, handoffActs_cons, he],
            by simpa using hnil⟩
        · exact Or.inr ⟨r', rest, by simpa using hdrop,
            by simp [innerLoop_cons_accept D r t d d' h, handoffActs_cons, he]⟩

end MCAB

namespace MCAB

theorem countBegins_append (a b : List Action) :
    countBegins (a ++ b) = countBegins a + countBegins b :=
  List.countP_append _ _ _

theorem countBegins_innerLoop (D : DispatchStage δ) (t : List InstRef) (d : δ) :
    countBegins (innerLoop D t d).2.2 = 0 := by
  rw [countBegins, List.countP_eq_zero]
  intro a ha
  have h := innerLoop_acts_handoff D t d a ha
  cases a <;> simp_all [Action.isHandoff, Action.isCycleBegin]

theorem countBegins_runCycle (D : DispatchStage δ) (S : Scheduler χ) (c : Nat)
    (s : BackendState δ χ) : countBegins (runCycle D S c s).2 = 1 := by
  have h := countBegins_innerLoop D s.fetchTrace (D.preExecute s.dispatch)
  simp only [countBegins] at h ⊢
  simp [runCycle, List.countP_cons, List.countP_append, Action.isCycleBegin, h]

theorem beginNums_innerLoop (D : DispatchStage δ) (t : List InstRef) (d : δ) :
    beginNums (innerLoop D t d).2.2 = [] := by
  rw [beginNums, List.filterMap_eq_nil_iff]
  intro a ha
  have h := innerLoop_acts_handoff D t d a ha
  cases a <;> simp_all [Action.isHandoff, Action.beginNum]

theorem beginNums_runCycle (D : DispatchStage δ) (S : Scheduler χ) (c : Nat)
    (s : BackendState δ χ) : beginNums (runCycle D S c s).2 = [c] := by
  have h := beginNums_innerLoop D s.fetchTrace (D.preExecute s.dispatch)
  simp only [beginNums] at h ⊢
  simp [runCycle, List.filterMap_cons, List.filterMap_append, Action.beginNum, h]

theorem beginNums_append (a b : List Action) :
    beginNums (a ++ b) = beginNums a ++ beginNums b :=
  List.filterMap_append _ _ _

theorem runCycle_cycles (D : DispatchStage δ) (S : Scheduler χ) (c : Nat)
    (s : BackendState δ χ) : (runCycle D S c s).1.cycles = s.cycles := rfl

theorem run_zero (D : DispatchStage δ) (S : Scheduler χ) (s : BackendState δ χ) :
    run D S 0 s = (s, []) := rfl

theorem run_succ_neg (D : DispatchStage δ) (S : Scheduler χ) (f : Nat) (s : BackendState δ χ)
    (h : condHolds D s = false) : run D S (f + 1) s = (s, []) := by
  simp [run, h]

theorem run_succ_pos (D : DispatchStage δ) (S : Scheduler χ) (f : Nat) (s : BackendState δ χ)
    (h : condHolds D s = true) :
    run D S (f + 1) s =
      ((run D S f (runCycle D S s.cycles { s with cycles := s.cycles + 1 }).1).1,
        (runCycle D S s.cycles { s with cycles := s.cycles + 1 }).2 ++
          (run D S f (runCycle D S s.cycles { s with cycles := s.cycles + 1 }).1).2) := by
  simp [run, h]

theorem run_spare_fuel (D : DispatchStage δ) (S : Scheduler χ) :
    ∀ (f : Nat) (s : BackendState δ χ),
      countBegins (run D S f s).2 < f → condHolds D (run D S f s).1 = false := by
  intro f
  induction f with
  | zero =>
    intro s h
    rw [run_zero] at h
    simp [countBegins] at h
  | succ f ih =>
    intro s h
    cases hc : condHolds D s with
    | false => rw [run_succ_neg D S f s hc]; exact hc
    | true =>
      rw [run_succ_pos D S f s hc] at h ⊢
      rw [countBegins_append, countBegins_runCycle] at h
      exact ih _ (by omega)

/-- C1: `Backend::run` terminates exactly when
`Fetch->isReady() || !Dispatch->isReady()` fails: if the condition is
false nothing runs and the state is returned unchanged; if it is true (and
fuel remains) at least one cycle executes; and whenever the loop stops
with fuel to spare, the condition is false at the final state. -/
theorem run_termination_criterion (D : DispatchStage δ) (S : Scheduler χ) (f : Nat)
    (s : BackendState δ χ) :
    (condHolds D s = false → run D S f s = (s, [])) ∧
    (condHolds D s = true → 0 < f → 0 < countBegins (run D S f s).2) ∧
    (countBegins (run D S f s).2 < f → condHolds D (run D S f s).1 = false) := by
  refine ⟨?_, ?_, run_spare_fuel D S f s⟩
  · intro hc
    cases f with
    | zero => rfl
    | succ f => exact run_succ_neg D S f s hc
  · intro hc hf
    obtain ⟨f', rfl⟩ : ∃ f', f = f' + 1 := ⟨f - 1, by omega⟩
    rw [run_succ_pos D S f' s hc, countBegins_append, countBegins_runCycle]
    omega

/-- Witness for C1 on closed inputs: with the trace exhausted and the
dispatch stage drained the condition is false and `run` is the identity;
with pending work the condition is true and a cycle is counted. -/
theorem run_termination_criterion_witness :
    run capDispatch unitSched 5 drainedBackend = (drainedBackend, []) ∧
    0 < countBegins (run capDispatch unitSched 5 sampleBackend).2 := by
  constructor
  · exact (run_termination_criterion capDispatch unitSched 5 drainedBackend).1 rfl
  · exact (run_termination_criterion capDispatch unitSched 5 sampleBackend).2.1 rfl (by omega)

theorem run_cycles_eq (D : DispatchStage δ) (S : Scheduler χ) :
    ∀ (f : Nat) (s : BackendState δ χ),
      (run D S f s).1.cycles = s.cycles + countBegins (run D S f s).2 := by
  intro f
  induction f with
  | zero => intro s; simp [run_zero, countBegins]
  | succ f ih =>
    intro s
    cases hc : condHolds D s with
    | false => simp [run_succ_neg D S f s hc, countBegins]
    | true =>
      rw [run_succ_pos D S f s hc]
      simp only [countBegins_append, countBegins_runCycle]
      have h := ih (runCycle D S s.cycles { s with cycles := s.cycles + 1 }).1
      rw [runCycle_cycles] at h
      simp only [h]
      omega

theorem run_beginNums (D : DispatchStage δ) (S : Scheduler χ) :
    ∀ (f : Nat) (s : BackendState δ χ),
      beginNums (run D S f s).2 = natsFrom s.cycles (countBegins (run D S f s).2) := by
  intro f
  induction f with
  | zero => intro s; simp [run_zero, countBegins, beginNums, natsFrom]
  | succ f ih =>
    intro s
    cases hc : condHolds D s with
    | false => simp [run_succ_neg D S f s hc, countBegins, beginNums, natsFrom]
    | true =>
      rw [run_succ_pos D S f s hc]
      rw [beginNums_append, beginNums_runCycle, countBegins_append, countBegins_runCycle]
      have h := ih (runCycle D S s.cycles { s with cycles := s.cycles + 1 }).1
      rw [runCycle_cycles] at h
      rw [h, Nat.add_comm 1]
      rfl

/-- C7: the cycle counter advances by exactly one per executed cycle — the
final counter is the initial counter plus the number of cycles run, and
the cycle numbers passed to `runCycle` are the consecutive values starting
at the initial counter — and a freshly constructed backend starts at
cycle 0. -/
theorem cycle_counter_monotone (D : DispatchStage δ) (S : Scheduler χ) (f : Nat)
    (s : BackendState δ χ) (t0 : List InstRef) (d0 : δ) (x0 : χ) :
    (run D S f s).1.cycles = s.cycles + countBegins (run D S f s).2 ∧
    beginNums (run D S f s).2 = natsFrom s.cycles (countBegins (run D S f s).2) ∧
    (mkBackend t0 d0 x0 : BackendState δ χ).cycles = 0 :=
  ⟨run_cycles_eq D S f s, run_beginNums D S f s, rfl⟩

end MCAB

namespace MCAB

/-- C5: `Backend::addEventListener` is a no-op on a null listener and on
an already-registered listener; otherwise it appends the listener to the
registry, leaving every other component of the backend state unchanged. -/
theorem addEventListener_noop_or_append (s : BackendState δ χ) (l : ListenerId) :
    addEventListener none s = s ∧
    (l ∈ s.listeners → addEventListener (some l) s = s) ∧
    (l ∉ s.listeners →
      (addEventListener (some l) s).listeners = s.listeners ++ [l] ∧
      (addEventListener (some l) s).fetchTrace = s.fetchTrace ∧
      (addEventListener (some l) s).dispatch = s.dispatch ∧
      (addEventListener (some l) s).sched = s.sched ∧
      (addEventListener (some l) s).cycles = s.cycles) := by
  refine ⟨rfl, fun h => ?_, fun h => ?_⟩
  · simp [addEventListener, h]
  · simp [addEventListener, h]

/-- Witness for C5 on a closed state: registering listener 1 again is a
no-op, and registering the fresh listener 4 appends it. -/
theorem addEventListener_noop_or_append_witness :
    addEventListener (some 1) sampleBackend = sampleBackend ∧
    (addEventListener (some 4) sampleBackend).listeners = [3, 1, 2, 4] := by
  constructor
  · exact (addEventListener_noop_or_append sampleBackend 1).2.1 (by decide)
  · exact ((addEventListener_noop_or_append sampleBackend 4).2.2 (by decide)).1

/-- C6: each of the seven notification routines delivers the event to the
registered listeners exactly in registration order (the listener sequence
of the delivery log is the registry itself), and, the registry being
duplicate-free, each registered listener receives each event exactly
once. -/
theorem notify_registration_order (s : BackendState δ χ) (e₁ e₂ : Nat) (rr : Nat × Nat)
    (bs₁ bs₂ : List Nat) (hnd : s.listeners.Nodup) :
    (notifyCycleBegin s).map Prod.fst = s.listeners ∧
    (notifyCycleEnd s).map Prod.fst = s.listeners ∧
    (notifyInstructionEvent s e₁).map Prod.fst = s.listeners ∧
    (notifyStallEvent s e₂).map Prod.fst = s.listeners ∧
    (notifyResourceAvailable s rr).map Prod.fst = s.listeners ∧
    (notifyReservedBuffers s bs₁).map Prod.fst = s.listeners ∧
    (notifyReleasedBuffers s bs₂).map Prod.fst = s.listeners ∧
    ∀ l ∈ s.listeners,
      ((notifyCycleBegin s).map Prod.fst).count l = 1 ∧
      ((notifyCycleEnd s).map Prod.fst).count l = 1 ∧
      ((notifyInstructionEvent s e₁).map Prod.fst).count l = 1 ∧
      ((notifyStallEvent s e₂).map Prod.fst).count l = 1 ∧
      ((notifyResourceAvailable s rr).map Prod.fst).count l = 1 ∧
      ((notifyReservedBuffers s bs₁).map Prod.fst).count l = 1 ∧
      ((notifyReleasedBuffers s bs₂).map Prod.fst).count l = 1 := by
  have hb : (notifyCycleBegin s).map Prod.fst = s.listeners := by
    simp [notifyCycleBegin, Function.comp_def]
  have he : (notifyCycleEnd s).map Prod.fst = s.listeners := by
    simp [notifyCycleEnd, Function.comp_def]
  have hi : (notifyInstructionEvent s e₁).map Prod.fst = s.listeners := by
    simp [notifyInstructionEvent, Function.comp_def]
  have hs : (notifyStallEvent s e₂).map Prod.fst = s.listeners := by
    simp [notifyStallEvent, Function.comp_def]
  have hr : (notifyResourceAvailable s rr).map Prod.fst = s.listeners := by
    simp [notifyResourceAvailable, Function.comp_def]
  have hv : (notifyReservedBuffers s bs₁).map Prod.fst = s.listeners := by
    simp [notifyReservedBuffers, Function.comp_def]
  have hl : (notifyReleasedBuffers s bs₂).map Prod.fst = s.listeners := by
    simp [notifyReleasedBuffers, Function.comp_def]
  refine ⟨hb, he, hi, hs, hr, hv, hl, fun l hml => ?_⟩
  have hc : s.listeners.count l = 1 := List.count_eq_one_of_mem hnd hml
  rw [hb, he, hi, hs, hr, hv, hl]
  exact ⟨hc, hc, hc, hc, hc, hc, hc⟩

/-- Witness for C6 on a closed state with registry `[3, 1, 2]`. -/
theorem notify_registration_order_witness :
    (notifyCycleBegin sampleBackend).map Prod.fst = [3, 1, 2] ∧
    ((notifyInstructionEvent sampleBackend 9).map Prod.fst).count 1 = 1 := by
  have h := notify_registration_order sampleBackend 9 9 (0, 0) [] [] (by decide)
  exact ⟨h.1, (h.2.2.2.2.2.2.2 1 (by decide)).2.2.1⟩

end MCAB

namespace RSS

theorem getElem?_modifyIdx (g : Func → Func) :
    ∀ (l : List Func) (n i : Nat),
      (modifyIdx g n l)[i]? = if i = n then (l[i]?).map g else l[i]? := by
  intro l
  induction l with
  | nil => intro n i; simp [modifyIdx]
  | cons F l ih =>
    intro n i
    cases n with
    | zero =>
      cases i with
      | zero => simp [modifyIdx]
      | succ i => simp [modifyIdx]
    | succ n =>
      cases i with
      | zero => simp [modifyIdx]
      | succ i => simpa [modifyIdx, Nat.succ_inj] using ih n i

theorem nameOf_setName_ne (M : Module) (c : FnId) (n : String) (i : FnId) (h : i ≠ c) :
    (M.setName c n).nameOf i = M.nameOf i := by
  simp [Module.setName, Module.nameOf, getElem?_modifyIdx, h]

theorem nameOf_setName_self (M : Module) (c : FnId) (n : String) (F : Func)
    (h : M.funcs[c]? = some F) : (M.setName c n).nameOf c = some n := by
  simp [Module.setName, Module.nameOf, getElem?_modifyIdx, h]

theorem body_setName (M : Module) (c : FnId) (n : String) (i : FnId) :
    ((M.setName c n).funcs[i]?).map Func.body = (M.funcs[i]?).map Func.body := by
  by_cases h : i = c
  · subst h
    simp only [Module.setName, getElem?_modifyIdx, if_pos rfl]
    cases M.funcs[i]? <;> rfl
  · simp [Module.setName, getElem?_modifyIdx, h]

theorem isSome_setName (M : Module) (c : FnId) (n : String) (i : FnId) :
    ((M.setName c n).funcs[i]?).isSome = (M.funcs[i]?).isSome := by
  by_cases h : i = c
  · subst h
    simp only [Module.setName, getElem?_modifyIdx, if_pos rfl]
    cases M.funcs[i]? <;> rfl
  · simp [Module.setName, getElem?_modifyIdx, h]

theorem nameOf_setBody (M : Module) (c : FnId) (b : List BasicBlock) (i : FnId) :
    (M.setBody c b).nameOf i = M.nameOf i := by
  by_cases h : i = c
  · subst h
    simp only [Module.setBody, Module.nameOf, getElem?_modifyIdx, if_pos rfl]
    cases M.funcs[i]? <;> rfl
  · simp [Module.setBody, Module.nameOf, getElem?_modifyIdx, h]

theorem body_setBody_ne (M : Module) (c : FnId) (b : List BasicBlock) (i : FnId) (h : i ≠ c) :
    (M.setBody c b).funcs[i]? = M.funcs[i]? := by
  simp [Module.setBody, getElem?_modifyIdx, h]

theorem bodyOf_setBody_self (M : Module) (c : FnId) (b : List BasicBlock) (F : Func)
    (h : M.funcs[c]? = some F) : (M.setBody c b).bodyOf c = b := by
  simp [Module.setBody, Module.bodyOf, getElem?_modifyIdx, h]

theorem renameCallees_nil (σ : String → Option String) (M : Module) :
    renameCallees σ M [] = M := rfl

theorem renameCallees_cons (σ : String → Option String) (M : Module) (c : FnId)
    (cs : List FnId) :
    renameCallees σ M (c :: cs) = renameCallees σ (renameStep σ M c) cs := rfl

theorem renameStep_none (σ : String → Option String) (M : Module) (c : FnId)
    (hn : M.nameOf c = none) : renameStep σ M c = M := by
  simp [renameStep, hn]

theorem renameStep_skip (σ : String → Option String) (M : Module) (c : FnId) (n : String)
    (hn : M.nameOf c = some n) (hσ : σ n = none) : renameStep σ M c = M := by
  simp [renameStep, hn, hσ]

theorem renameStep_rename (σ : String → Option String) (M : Module) (c : FnId) (n n' : String)
    (hn : M.nameOf c = some n) (hσ : σ n = some n') : renameStep σ M c = M.setName c n' := by
  simp [renameStep, hn, hσ]

theorem renameStep_shape (σ : String → Option String) (M : Module) (c : FnId) :
    renameStep σ M c = M ∨
      ∃ n n', M.nameOf c = some n ∧ σ n = some n' ∧ renameStep σ M c = M.setName c n' := by
  cases hn : M.nameOf c with
  | none => exact Or.inl (renameStep_none σ M c hn)
  | some n =>
    cases hσ : σ n with
    | none => exact Or.inl (renameStep_skip σ M c n hn hσ)
    | some n2 => exact Or.inr ⟨n, n2, rfl, hσ, renameStep_rename σ M c n n2 hn hσ⟩

theorem nameOf_renameStep_ne (σ : String → Option String) (M : Module) (c : FnId) (i : FnId)
    (h : i ≠ c) : (renameStep σ M c).nameOf i = M.nameOf i := by
  rcases renameStep_shape σ M c with hs | ⟨n, n', _, _, hs⟩
  · rw [hs]
  · rw [hs, nameOf_setName_ne M c n' i h]

theorem renameCallees_frozen (σ : String → Option String) :
    ∀ (cs : List FnId) (M : Module) (c : FnId),
      (∀ n, M.nameOf c = some n → σ n = none) →
      (renameCallees σ M cs).nameOf c = M.nameOf c := by
  intro cs
  induction cs with
  | nil => intro M c _; rfl
  | cons c0 cs ih =>
    intro M c h
    rw [renameCallees_cons]
    have hstep : (renameStep σ M c0).nameOf c = M.nameOf c := by
      by_cases hc : c = c0
      · subst hc
        rcases renameStep_shape σ M c with hs | ⟨n, n', hn, hσ, hs⟩
        · rw [hs]
        · exact absurd (h n hn) (by rw [hσ]; intro hx; cases hx)
      · exact nameOf_renameStep_ne σ M c0 c hc
    rw [ih (renameStep σ M c0) c (by rw [hstep]; exact h), hstep]

theorem renameCallees_renamed (σ : String → Option String) :
    ∀ (cs : List FnId) (M : Module) (c : FnId) (n n' : String),
      c ∈ cs → M.nameOf c = some n → σ n = some n' → σ n' = none →
      (renameCallees σ M cs).nameOf c = some n' := by
  intro cs
  induction cs with
  | nil => intro M c n n' h; cases h
  | cons c0 cs ih =>
    intro M c n n' hmem hn hσ hσ'
    rw [renameCallees_cons]
    by_cases hc : c = c0
    · subst hc
      obtain ⟨F, hF⟩ : ∃ F, M.funcs[c]? = some F := by
        rcases hx : M.funcs[c]? with _ | F
        · rw [Module.nameOf, hx] at hn; cases hn
        · exact ⟨F, rfl⟩
      have hni : (renameStep σ M c).nameOf c = some n' := by
        rw [renameStep_rename σ M c n n' hn hσ]
        exact nameOf_setName_self M c n' F hF
      rw [renameCallees_frozen σ cs _ c (by rw [hni]; intro m hm; cases hm; exact hσ')]
      exact hni
    · have hmem' : c ∈ cs := by
        rcases List.mem_cons.mp hmem with he | hm
        · exact absurd he hc
        · exact hm
      exact ih (renameStep σ M c0) c n n' hmem'
        (by rw [nameOf_renameStep_ne σ M c0 c hc]; exact hn) hσ hσ'

theorem renameCallees_body (σ : String → Option String) :
    ∀ (cs : List FnId) (M : Module) (i : FnId),
      ((renameCallees σ M cs).funcs[i]?).map Func.body = (M.funcs[i]?).map Func.body := by
  intro cs
  induction cs with
  | nil => intro M i; rfl
  | cons c0 cs ih =>
    intro M i
    rw [renameCallees_cons, ih (renameStep σ M c0) i]
    rcases renameStep_shape σ M c0 with hs | ⟨n, n', _, _, hs⟩
    · rw [hs]
    · rw [hs, body_setName M c0 n' i]

theorem renameCallees_isSome (σ : String → Option String) :
    ∀ (cs : List FnId) (M : Module) (i : FnId),
      ((renameCallees σ M cs).funcs[i]?).isSome = (M.funcs[i]?).isSome := by
  intro cs
  induction cs with
  | nil => intro M i; rfl
  | cons c0 cs ih =>
    intro M i
    rw [renameCallees_cons, ih (renameStep σ M c0) i]
    rcases renameStep_shape σ M c0 with hs | ⟨n, n', _, _, hs⟩
    · rw [hs]
    · rw [hs, isSome_setName M c0 n' i]

theorem renameCallees_output (σ : String → Option String) :
    ∀ (cs : List FnId) (M : Module) (i : FnId),
      (renameCallees σ M cs).nameOf i = M.nameOf i ∨
        ∃ a b, σ a = some b ∧ (renameCallees σ M cs).nameOf i = some b := by
  intro cs
  induction cs with
  | nil => intro M i; exact Or.inl rfl
  | cons c0 cs ih =>
    intro M i
    rw [renameCallees_cons]
    rcases ih (renameStep σ M c0) i with h | ⟨a, b, hab, hb⟩
    · rcases renameStep_shape σ M c0 with hs | ⟨n, n', hn, hσ, hs⟩
      · rw [hs] at h ⊢; exact Or.inl h
      · rw [hs] at h ⊢
        by_cases hc : i = c0
        · subst hc
          obtain ⟨F, hF⟩ : ∃ F, M.funcs[i]? = some F := by
            rcases hx : M.funcs[i]? with _ | F
            · rw [Module.nameOf, hx] at hn; cases hn
            · exact ⟨F, rfl⟩
          right
          refine ⟨n, n', hσ, ?_⟩
          rw [h]
          exact nameOf_setName_self M i n' F hF
        · rw [nameOf_setName_ne M c0 n' i hc] at h
          exact Or.inl h
    · exact Or.inr ⟨a, b, hab, hb⟩

end RSS

namespace RSS

theorem mem_funcCallees (M : Module) (p : String → Bool) (F : Func) (c : FnId) (n : String)
    (hc : Instr.call (some c) ∈ allInsts F) (hn : M.nameOf c = some n) (hp : p n = true) :
    c ∈ funcCallees M p F := by
  rw [allInsts] at hc
  rw [funcCallees]
  simp only [List.mem_flatten, List.mem_map] at hc ⊢
  obtain ⟨l, ⟨bb, hbb, rfl⟩, hil⟩ := hc
  refine ⟨blockCallees M p bb, ⟨bb, hbb, rfl⟩, ?_⟩
  rw [blockCallees]
  exact List.mem_filterMap.mpr ⟨Instr.call (some c), hil, by simp [calleeIfMatch, hn, hp]⟩

theorem setjmpSubst_cases (n n' : String) (h : setjmpSubst n = some n') :
    (n = "_setjmp" ∧ n' = "_safe_setjmp") ∨ (n = "__sigsetjmp" ∧ n' = "__safe_sigsetjmp") := by
  rw [setjmpSubst] at h
  split_ifs at h with h1 h2
  · exact Or.inl ⟨h1, (Option.some_inj.mp h).symm⟩
  · exact Or.inr ⟨h2, (Option.some_inj.mp h).symm⟩

theorem longjmpSubst_cases (n n' : String) (h : longjmpSubst n = some n') :
    (n = "longjmp" ∧ n' = "safe_longjmp") ∨ (n = "siglongjmp" ∧ n' = "safe_siglongjmp") := by
  rw [longjmpSubst] at h
  split_ifs at h with h1 h2
  · exact Or.inl ⟨h1, (Option.some_inj.mp h).symm⟩
  · exact Or.inr ⟨h2, (Option.some_inj.mp h).symm⟩

theorem unsafeSubst_cases (n n' : String) (h : unsafeSubst n = some n') :
    (setjmpSubst n = some n' ∧ isSetjmpName n = true) ∨
      (longjmpSubst n = some n' ∧ isLongjmpName n = true ∧ setjmpSubst n = none) := by
  rw [unsafeSubst] at h
  cases hs : setjmpSubst n with
  | some m =>
    rw [hs] at h
    have h2 : (some m : Option String) = some n' := h
    refine Or.inl ⟨h2, ?_⟩
    rcases setjmpSubst_cases n m hs with ⟨rfl, _⟩ | ⟨rfl, _⟩ <;> rfl
  | none =>
    rw [hs] at h
    have h2 : longjmpSubst n = some n' := h
    refine Or.inr ⟨h2, ?_, rfl⟩
    rcases longjmpSubst_cases n n' h2 with ⟨rfl, _⟩ | ⟨rfl, _⟩ <;> rfl

theorem setjmpSubst_safe_none (n n' : String) (h : unsafeSubst n = some n') :
    setjmpSubst n' = none := by
  rcases unsafeSubst_cases n n' h with ⟨hs, _⟩ | ⟨hl, _, _⟩
  · rcases setjmpSubst_cases n n' hs with ⟨_, rfl⟩ | ⟨_, rfl⟩ <;> rfl
  · rcases longjmpSubst_cases n n' hl with ⟨_, rfl⟩ | ⟨_, rfl⟩ <;> rfl

theorem longjmpSubst_safe_none (n n' : String) (h : unsafeSubst n = some n') :
    longjmpSubst n' = none := by
  rcases unsafeSubst_cases n n' h with ⟨hs, _⟩ | ⟨hl, _, _⟩
  · rcases setjmpSubst_cases n n' hs with ⟨_, rfl⟩ | ⟨_, rfl⟩ <;> rfl
  · rcases longjmpSubst_cases n n' hl with ⟨_, rfl⟩ | ⟨_, rfl⟩ <;> rfl

theorem unsafeSubst_ne (n n' : String) (h : unsafeSubst n = some n') : n' ≠ n := by
  rcases unsafeSubst_cases n n' h with ⟨hs, _⟩ | ⟨hl, _, _⟩
  · rcases setjmpSubst_cases n n' hs with ⟨rfl, rfl⟩ | ⟨rfl, rfl⟩ <;> decide
  · rcases longjmpSubst_cases n n' hl with ⟨rfl, rfl⟩ | ⟨rfl, rfl⟩ <;> decide

theorem subst_output_safe (a b n n' : String) (h : unsafeSubst n = some n') :
    (setjmpSubst a = some b → b ≠ n) ∧ (longjmpSubst a = some b → b ≠ n) := by
  constructor
  · intro hs
    rcases setjmpSubst_cases a b hs with ⟨_, rfl⟩ | ⟨_, rfl⟩ <;>
      (intro he; subst he;
       rcases unsafeSubst_cases _ n' h with ⟨hx, _⟩ | ⟨hx, _, _⟩ <;> simp_all [setjmpSubst, longjmpSubst])
  · intro hs
    rcases longjmpSubst_cases a b hs with ⟨_, rfl⟩ | ⟨_, rfl⟩ <;>
      (intro he; subst he;
       rcases unsafeSubst_cases _ n' h with ⟨hx, _⟩ | ⟨hx, _, _⟩ <;> simp_all [setjmpSubst, longjmpSubst])

end RSS

namespace RSS

theorem insertPops_cons (i : Instr) (l : List Instr) :
    insertPops (i :: l) = (if i.isRet then [Instr.callPop, i] else [i]) ++ insertPops l := by
  simp only [insertPops, List.map_cons, List.flatten_cons]

theorem insertPops_append (a b : List Instr) :
    insertPops (a ++ b) = insertPops a ++ insertPops b := by
  simp [insertPops]

theorem insertPops_no_ret (l : List Instr) (h : ∀ i ∈ l, i.isRet = false) :
    insertPops l = l := by
  induction l with
  | nil => rfl
  | cons i l ih =>
    rw [insertPops_cons, h i (List.mem_cons_self i l), ih fun j hj => h j (List.mem_cons_of_mem i hj)]
    rfl

theorem countP_insertPops (p : Instr → Bool) (hpop : p Instr.callPop = false) :
    ∀ l : List Instr, (insertPops l).countP p = l.countP p := by
  intro l
  induction l with
  | nil => rfl
  | cons i l ih =>
    rw [insertPops_cons, List.countP_append, ih]
    cases hr : i.isRet <;> simp [List.countP_cons, hpop] <;> omega

theorem countP_isPop_insertPops :
    ∀ l : List Instr,
      (insertPops l).countP Instr.isPop = l.countP Instr.isPop + l.countP Instr.isRet := by
  intro l
  induction l with
  | nil => rfl
  | cons i l ih =>
    rw [insertPops_cons, List.countP_append, ih]
    cases hr : i.isRet with
    | false => simp [List.countP_cons, hr]; omega
    | true =>
      have hip : i.isPop = false := by cases i <;> simp_all [Instr.isRet, Instr.isPop]
      simp [List.countP_cons, hr, hip, Instr.isPop]
      omega

theorem firstNonPhiIdx_spec :
    ∀ (l : List Instr) (idx : Nat), firstNonPhiIdx l = some idx →
      idx ≤ l.length ∧ (∀ i ∈ l.take idx, i.isPhi = true) ∧
      ∃ j rest, l.drop idx = j :: rest ∧ j.isPhi = false := by
  intro l
  induction l with
  | nil => intro idx h; cases h
  | cons i l ih =>
    intro idx h
    rw [firstNonPhiIdx] at h
    cases hp : i.isPhi with
    | false =>
      rw [hp] at h
      simp only [Bool.false_eq_true, if_false, Option.some_inj] at h
      subst h
      exact ⟨Nat.zero_le _, by simp, i, l, rfl, hp⟩
    | true =>
      rw [hp] at h
      simp only [if_true] at h
      obtain ⟨m, hm, rfl⟩ := Option.map_eq_some'.mp h
      obtain ⟨hle, hphis, j, rest, hdrop, hj⟩ := ih m hm
      refine ⟨by simpa using Nat.succ_le_succ hle, ?_, j, rest, by simpa using hdrop, hj⟩
      intro x hx
      rw [List.take_succ_cons] at hx
      rcases List.mem_cons.mp hx with rfl | hx
      · exact hp
      · exact hphis x hx

theorem bodyCountP_cons (f : Instr → Bool) (bb : BasicBlock) (rest : List BasicBlock) :
    bodyCountP f (bb :: rest) = bb.insts.countP f + bodyCountP f rest := by
  simp [bodyCountP]

theorem bodyCountP_map_insertPops (f : Instr → Bool) (hpop : f Instr.callPop = false) :
    ∀ rest : List BasicBlock,
      bodyCountP f (rest.map fun b => ⟨insertPops b.insts⟩) = bodyCountP f rest := by
  intro rest
  induction rest with
  | nil => rfl
  | cons b rest ih =>
    rw [List.map_cons, bodyCountP_cons, bodyCountP_cons, ih, countP_insertPops f hpop]

theorem bodyCountP_map_insertPops_pop :
    ∀ rest : List BasicBlock,
      bodyCountP Instr.isPop (rest.map fun b => ⟨insertPops b.insts⟩) =
        bodyCountP Instr.isPop rest + bodyCountP Instr.isRet rest := by
  intro rest
  induction rest with
  | nil => rfl
  | cons b rest ih =>
    rw [List.map_cons, bodyCountP_cons, bodyCountP_cons, bodyCountP_cons, ih,
      countP_isPop_insertPops]
    omega

end RSS

namespace RSS

theorem SetjmpSanitizer_noF (marker : Nat) (M : Module) (fid : FnId)
    (hF : M.funcs[fid]? = none) : SetjmpSanitizer marker M fid = (false, M, marker) := by
  simp [SetjmpSanitizer, hF]

theorem SetjmpSanitizer_decl (marker : Nat) (M : Module) (fid : FnId) (F : Func)
    (hF : M.funcs[fid]? = some F) (hd : F.isDecl = true) :
    SetjmpSanitizer marker M fid = (false, M, marker) := by
  simp [SetjmpSanitizer, hF, hd]

theorem SetjmpSanitizer_noattr (marker : Nat) (M : Module) (fid : FnId) (F : Func)
    (hF : M.funcs[fid]? = some F) (hd : F.isDecl = false) (ha : F.returnStackAttr = false) :
    SetjmpSanitizer marker M fid = (false, M, marker) := by
  simp [SetjmpSanitizer, hF, hd, ha]

theorem SetjmpSanitizer_noentry (marker : Nat) (M : Module) (fid : FnId) (F : Func)
    (hF : M.funcs[fid]? = some F) (hd : F.isDecl = false) (ha : F.returnStackAttr = true)
    (he : entryInstrIdx F = none) :
    SetjmpSanitizer marker M fid = (false, M, marker) := by
  simp [SetjmpSanitizer, hF, hd, ha, he]

theorem SetjmpSanitizer_eq (marker : Nat) (M : Module) (fid : FnId) (F : Func) (idx : Nat)
    (hF : M.funcs[fid]? = some F) (hd : F.isDecl = false) (ha : F.returnStackAttr = true)
    (he : entryInstrIdx F = some idx) :
    SetjmpSanitizer marker M fid =
      if (setjmpCallSites M F).isEmpty then
        (!((setjmpCallSites M F).isEmpty && (longjmpCallSites M F).isEmpty),
          renameCallees longjmpSubst M (longjmpCallSites M F), marker)
      else
        (!((setjmpCallSites M F).isEmpty && (longjmpCallSites M F).isEmpty),
          (renameCallees setjmpSubst (renameCallees longjmpSubst M (longjmpCallSites M F))
              (setjmpCallSites M F)).setBody fid (sanitizeBody marker idx F.body),
          decMarker marker) := by
  simp [SetjmpSanitizer, hF, hd, ha, he]

/-- C8: `runOnFunction` reports a change exactly when the function is a
definition carrying the `ReturnStack` attribute, has a first non-PHI
entry instruction, and contains a call to one of the four unsafe names;
whenever it reports no change, the module and the marker counter are
returned untouched. -/
theorem runOnFunction_changed_iff (marker : Nat) (M : Module) (fid : FnId) :
    ((runOnFunction marker M fid).1 = true ↔
      ∃ F, M.funcs[fid]? = some F ∧ F.isDecl = false ∧ F.returnStackAttr = true ∧
        (entryInstrIdx F).isSome = true ∧
        (setjmpCallSites M F ≠ [] ∨ longjmpCallSites M F ≠ [])) ∧
    ((runOnFunction marker M fid).1 = false →
      (runOnFunction marker M fid).2.1 = M ∧ (runOnFunction marker M fid).2.2 = marker) := by
  rw [runOnFunction]
  rcases hF : M.funcs[fid]? with _ | F
  · rw [SetjmpSanitizer_noF marker M fid hF]
    constructor
    · constructor
      · intro h
        exact Bool.noConfusion h
      · rintro ⟨F, hF', -⟩
        exact Option.noConfusion hF'
    · intro _
      exact ⟨rfl, rfl⟩
  · cases hd : F.isDecl with
    | true =>
      rw [SetjmpSanitizer_decl marker M fid F hF hd]
      constructor
      · constructor
        · intro h
          exact Bool.noConfusion h
        · rintro ⟨F', hF', hd', -⟩
          cases Option.some_inj.mp hF'
          rw [hd] at hd'
          exact Bool.noConfusion hd'
      · intro _
        exact ⟨rfl, rfl⟩
    | false =>
      cases ha : F.returnStackAttr with
      | false =>
        rw [SetjmpSanitizer_noattr marker M fid F hF hd ha]
        constructor
        · constructor
          · intro h
            exact Bool.noConfusion h
          · rintro ⟨F', hF', -, ha', -⟩
            cases Option.some_inj.mp hF'
            rw [ha] at ha'
            exact Bool.noConfusion ha'
        · intro _
          exact ⟨rfl, rfl⟩
      | true =>
        rcases he : entryInstrIdx F with _ | idx
        · rw [SetjmpSanitizer_noentry marker M fid F hF hd ha he]
          constructor
          · constructor
            · intro h
              exact Bool.noConfusion h
            · rintro ⟨F', hF', -, -, he', -⟩
              cases Option.some_inj.mp hF'
              rw [he] at he'
              exact Bool.noConfusion he'
          · intro _
            exact ⟨rfl, rfl⟩
        · rw [SetjmpSanitizer_eq marker M fid F idx hF hd ha he]
          cases hsj : (setjmpCallSites M F).isEmpty with
          | true =>
            have hsj' : setjmpCallSites M F = [] := List.isEmpty_iff.mp hsj
            cases hlj : (longjmpCallSites M F).isEmpty with
            | true =>
              have hlj' : longjmpCallSites M F = [] := List.isEmpty_iff.mp hlj
              rw [if_pos rfl]
              constructor
              · constructor
                · intro h
                  exact Bool.noConfusion h
                · rintro ⟨F', hF', -, -, -, hne⟩
                  cases Option.some_inj.mp hF'
                  rcases hne with hne | hne
                  · exact absurd hsj' hne
                  · exact absurd hlj' hne
              · intro _
                refine ⟨?_, rfl⟩
                rw [hlj', renameCallees_nil]
            | false =>
              have hlj' : longjmpCallSites M F ≠ [] := fun hx => by
                rw [hx] at hlj
                exact Bool.noConfusion hlj
              rw [if_pos rfl]
              constructor
              · constructor
                · intro _
                  refine ⟨F, rfl, hd, ha, ?_, Or.inr hlj'⟩
                  rw [he]
                  rfl
                · intro _
                  rfl
              · intro h
                exact Bool.noConfusion h
          | false =>
            have hsj' : setjmpCallSites M F ≠ [] := fun hx => by
              rw [hx] at hsj
              exact Bool.noConfusion hsj
            rw [if_neg (fun h => Bool.noConfusion h)]
            constructor
            · constructor
              · intro _
                refine ⟨F, rfl, hd, ha, ?_, Or.inl hsj'⟩
                rw [he]
                rfl
              · intro _
                rfl
            · intro h
              exact Bool.noConfusion h

/-- Witness for C8 on closed inputs: on `sampleModule` the attributed
function at index 0 reports a change, and on index 1 (a declaration) the
pass reports no change and leaves the module and marker untouched. -/
theorem runOnFunction_changed_iff_witness :
    (runOnFunction markerStart sampleModule 0).1 = true ∧
    (runOnFunction markerStart sampleModule 1).2.1 = sampleModule := by
  constructor
  · exact (runOnFunction_changed_iff markerStart sampleModule 0).1.mpr
      ⟨mainFn, by decide, by decide, by decide, by decide, Or.inl (by decide)⟩
  · exact ((runOnFunction_changed_iff markerStart sampleModule 1).2 (by decide)).1

end RSS

namespace RSS

theorem isEmpty_false_of_mem {c : FnId} {l : List FnId} (h : c ∈ l) : l.isEmpty = false := by
  cases l with
  | nil => cases h
  | cons a l => rfl

theorem sanitizer_rename_core (marker : Nat) (M : Module) (fid : FnId) (F : Func) (idx : Nat)
    (c : FnId) (n n' : String)
    (hF : M.funcs[fid]? = some F) (hd : F.isDecl = false) (ha : F.returnStackAttr = true)
    (he : entryInstrIdx F = some idx)
    (hcall : Instr.call (some c) ∈ allInsts F)
    (hn : M.nameOf c = some n) (hsub : unsafeSubst n = some n') :
    (SetjmpSanitizer marker M fid).2.1.nameOf c = some n' := by
  rw [SetjmpSanitizer_eq marker M fid F idx hF hd ha he]
  rcases unsafeSubst_cases n n' hsub with ⟨hσ, hsn⟩ | ⟨hσ, hln, hsnone⟩
  · have hcmem : c ∈ setjmpCallSites M F := mem_funcCallees M isSetjmpName F c n hcall hn hsn
    have hne : (setjmpCallSites M F).isEmpty = false := isEmpty_false_of_mem hcmem
    rw [if_neg (fun h => Bool.noConfusion (hne ▸ h))]
    rw [nameOf_setBody]
    have h1 : (renameCallees longjmpSubst M (longjmpCallSites M F)).nameOf c = some n := by
      rw [renameCallees_frozen longjmpSubst (longjmpCallSites M F) M c ?hz]
      · exact hn
      case hz =>
        intro m hm
        rw [hn] at hm
        cases hm
        rcases setjmpSubst_cases n n' hσ with ⟨h1, _⟩ | ⟨h1, _⟩ <;> subst h1 <;> rfl
    exact renameCallees_renamed setjmpSubst (setjmpCallSites M F) _ c n n' hcmem h1 hσ
      (setjmpSubst_safe_none n n' hsub)
  · have hcmem : c ∈ longjmpCallSites M F := mem_funcCallees M isLongjmpName F c n hcall hn hln
    have h1 : (renameCallees longjmpSubst M (longjmpCallSites M F)).nameOf c = some n' :=
      renameCallees_renamed longjmpSubst (longjmpCallSites M F) M c n n' hcmem hn hσ
        (longjmpSubst_safe_none n n' hsub)
    cases hsj : (setjmpCallSites M F).isEmpty with
    | true => rw [if_pos rfl]; exact h1
    | false =>
      rw [if_neg (fun h => Bool.noConfusion h)]
      rw [nameOf_setBody]
      rw [renameCallees_frozen setjmpSubst (setjmpCallSites M F) _ c ?hz]
      · exact h1
      case hz =>
        intro m hm
        rw [h1] at hm
        cases hm
        exact setjmpSubst_safe_none n n' hsub

theorem sanitizer_nameOf_output (marker : Nat) (M : Module) (fid : FnId) (F : Func) (idx : Nat)
    (hF : M.funcs[fid]? = some F) (hd : F.isDecl = false) (ha : F.returnStackAttr = true)
    (he : entryInstrIdx F = some idx) (i : FnId) :
    (SetjmpSanitizer marker M fid).2.1.nameOf i = M.nameOf i ∨
      ∃ a b, (setjmpSubst a = some b ∨ longjmpSubst a = some b) ∧
        (SetjmpSanitizer marker M fid).2.1.nameOf i = some b := by
  rw [SetjmpSanitizer_eq marker M fid F idx hF hd ha he]
  cases hsj : (setjmpCallSites M F).isEmpty with
  | true =>
    rw [if_pos rfl]
    rcases renameCallees_output longjmpSubst (longjmpCallSites M F) M i with h | ⟨a, b, hab, hb⟩
    · exact Or.inl h
    · exact Or.inr ⟨a, b, Or.inr hab, hb⟩
  | false =>
    rw [if_neg (fun h => Bool.noConfusion h)]
    rw [nameOf_setBody]
    rcases renameCallees_output setjmpSubst (setjmpCallSites M F)
        (renameCallees longjmpSubst M (longjmpCallSites M F)) i with h2 | ⟨a, b, hab, hb⟩
    · rw [h2]
      rcases renameCallees_output longjmpSubst (longjmpCallSites M F) M i with h1 | ⟨a, b, hab, hb⟩
      · exact Or.inl h1
      · exact Or.inr ⟨a, b, Or.inr hab, hb⟩
    · exact Or.inr ⟨a, b, Or.inl hab, hb⟩

theorem sanitizer_body_other (marker : Nat) (M : Module) (fid : FnId) (F : Func) (idx : Nat)
    (hF : M.funcs[fid]? = some F) (hd : F.isDecl = false) (ha : F.returnStackAttr = true)
    (he : entryInstrIdx F = some idx) (g : FnId) (hg : g ≠ fid) :
    ((SetjmpSanitizer marker M fid).2.1.funcs[g]?).map Func.body =
      (M.funcs[g]?).map Func.body := by
  rw [SetjmpSanitizer_eq marker M fid F idx hF hd ha he]
  cases hsj : (setjmpCallSites M F).isEmpty with
  | true =>
    rw [if_pos rfl]
    exact renameCallees_body longjmpSubst (longjmpCallSites M F) M g
  | false =>
    rw [if_neg (fun h => Bool.noConfusion h)]
    show ((Module.setBody _ fid _).funcs[g]?).map Func.body = _
    rw [body_setBody_ne _ fid _ g hg]
    rw [renameCallees_body setjmpSubst (setjmpCallSites M F) _ g]
    exact renameCallees_body longjmpSubst (longjmpCallSites M F) M g

theorem sanitizer_body_set (marker : Nat) (M : Module) (fid : FnId) (F : Func) (idx : Nat)
    (hF : M.funcs[fid]? = some F) (hd : F.isDecl = false) (ha : F.returnStackAttr = true)
    (he : entryInstrIdx F = some idx) (hsj : setjmpCallSites M F ≠ []) :
    (SetjmpSanitizer marker M fid).2.1.bodyOf fid = sanitizeBody marker idx F.body ∧
    (SetjmpSanitizer marker M fid).2.2 = decMarker marker := by
  rw [SetjmpSanitizer_eq marker M fid F idx hF hd ha he]
  have hne : (setjmpCallSites M F).isEmpty = false := by
    cases hx : (setjmpCallSites M F).isEmpty with
    | false => rfl
    | true => exact absurd (List.isEmpty_iff.mp hx) hsj
  rw [if_neg (fun h => Bool.noConfusion (hne ▸ h))]
  refine ⟨?_, rfl⟩
  have hsome : ((renameCallees setjmpSubst
      (renameCallees longjmpSubst M (longjmpCallSites M F))
      (setjmpCallSites M F)).funcs[fid]?).isSome = true := by
    rw [renameCallees_isSome, renameCallees_isSome, hF]
    rfl
  obtain ⟨F2, hF2⟩ := Option.isSome_iff_exists.mp hsome
  exact bodyOf_setBody_self _ fid _ F2 hF2

theorem sanitizer_body_unchanged (marker : Nat) (M : Module) (fid : FnId) (F : Func) (idx : Nat)
    (hF : M.funcs[fid]? = some F) (hd : F.isDecl = false) (ha : F.returnStackAttr = true)
    (he : entryInstrIdx F = some idx) (hsj : setjmpCallSites M F = []) :
    (SetjmpSanitizer marker M fid).2.1.bodyOf fid = M.bodyOf fid ∧
    (SetjmpSanitizer marker M fid).2.2 = marker := by
  rw [SetjmpSanitizer_eq marker M fid F idx hF hd ha he]
  rw [if_pos (by rw [hsj]; rfl)]
  refine ⟨?_, rfl⟩
  rw [Module.bodyOf, Module.bodyOf, renameCallees_body longjmpSubst (longjmpCallSites M F) M fid]

theorem countP_take_drop (p : Instr → Bool) (l : List Instr) (k : Nat) :
    l.countP p = (l.take k).countP p + (l.drop k).countP p := by
  rw [← List.countP_append, List.take_append_drop]

theorem bodyCountP_sanitizeBody (f : Instr → Bool) (hpop : f Instr.callPop = false)
    (hpush : ∀ m, f (Instr.callPush m) = false) (m idx : Nat) (b : List BasicBlock) :
    bodyCountP f (sanitizeBody m idx b) = bodyCountP f b := by
  cases b with
  | nil => rfl
  | cons bb rest =>
    show bodyCountP f (⟨insertPops (bb.insts.take idx ++ Instr.callPush m :: bb.insts.drop idx)⟩ ::
      rest.map fun b => ⟨insertPops b.insts⟩) = _
    rw [bodyCountP_cons, bodyCountP_cons, bodyCountP_map_insertPops f hpop]
    have h1 : (insertPops (bb.insts.take idx ++ Instr.callPush m :: bb.insts.drop idx)).countP f =
        (bb.insts.take idx ++ Instr.callPush m :: bb.insts.drop idx).countP f :=
      countP_insertPops f hpop _
    rw [h1, List.countP_append, List.countP_cons, hpush m, countP_take_drop f bb.insts idx]
    simp

end RSS

namespace RSS

theorem sanitizeBody_entry (m idx : Nat) (bb : BasicBlock) (rest : List BasicBlock)
    (hphis : ∀ i ∈ bb.insts.take idx, i.isPhi = true) :
    sanitizeBody m idx (bb :: rest) =
      ⟨bb.insts.take idx ++ Instr.callPush m :: insertPops (bb.insts.drop idx)⟩ ::
        rest.map (fun b => ⟨insertPops b.insts⟩) := by
  show (⟨insertPops (bb.insts.take idx ++ Instr.callPush m :: bb.insts.drop idx)⟩ :
      BasicBlock) :: _ = _
  have h1 : insertPops (bb.insts.take idx) = bb.insts.take idx :=
    insertPops_no_ret _ fun i hi => by
      have := hphis i hi
      cases i <;> simp_all [Instr.isPhi, Instr.isRet]
  rw [insertPops_append, insertPops_cons, h1]
  rfl

theorem bodyCountP_sanitize_push (m idx : Nat) (bb : BasicBlock) (rest : List BasicBlock) :
    bodyCountP Instr.isPush (sanitizeBody m idx (bb :: rest)) =
      bodyCountP Instr.isPush (bb :: rest) + 1 := by
  show bodyCountP Instr.isPush
      (⟨insertPops (bb.insts.take idx ++ Instr.callPush m :: bb.insts.drop idx)⟩ ::
        rest.map fun b => ⟨insertPops b.insts⟩) = _
  rw [bodyCountP_cons, bodyCountP_cons, bodyCountP_map_insertPops Instr.isPush rfl,
    countP_insertPops Instr.isPush rfl, List.countP_append, List.countP_cons,
    countP_take_drop Instr.isPush bb.insts idx]
  simp [Instr.isPush]
  omega

theorem bodyCountP_sanitize_pop (m idx : Nat) (bb : BasicBlock) (rest : List BasicBlock) :
    bodyCountP Instr.isPop (sanitizeBody m idx (bb :: rest)) =
      bodyCountP Instr.isPop (bb :: rest) + bodyCountP Instr.isRet (bb :: rest) := by
  show bodyCountP Instr.isPop
      (⟨insertPops (bb.insts.take idx ++ Instr.callPush m :: bb.insts.drop idx)⟩ ::
        rest.map fun b => ⟨insertPops b.insts⟩) = _
  rw [bodyCountP_cons, bodyCountP_cons, bodyCountP_cons, bodyCountP_map_insertPops_pop,
    countP_isPop_insertPops, List.countP_append, List.countP_append, List.countP_cons,
    List.countP_cons, countP_take_drop Instr.isPop bb.insts idx,
    countP_take_drop Instr.isRet bb.insts idx]
  simp [Instr.isPop, Instr.isRet]
  omega

/-- C4: for a function definition with the `ReturnStack` attribute (and a
first non-PHI entry instruction, as any well-formed definition has), every
direct call whose callee is currently named `_setjmp`, `__sigsetjmp`,
`longjmp`, or `siglongjmp` ends up, after the pass, with its callee named
`_safe_setjmp`, `__safe_sigsetjmp`, `safe_longjmp`, or `safe_siglongjmp`
respectively. -/
theorem sanitizer_rewrites_unsafe_calls (marker : Nat) (M : Module) (fid : FnId) (F : Func)
    (idx : Nat) (c : FnId) (n n' : String)
    (hF : M.funcs[fid]? = some F) (hd : F.isDecl = false) (ha : F.returnStackAttr = true)
    (he : entryInstrIdx F = some idx)
    (hcall : Instr.call (some c) ∈ allInsts F)
    (hn : M.nameOf c = some n) (hsub : unsafeSubst n = some n') :
    (SetjmpSanitizer marker M fid).2.1.nameOf c = some n' :=
  sanitizer_rename_core marker M fid F idx c n n' hF hd ha he hcall hn hsub

/-- Witness for C4 on the sample module: the `_setjmp` callee (index 1)
of the attributed function is renamed `_safe_setjmp`. -/
theorem sanitizer_rewrites_unsafe_calls_witness :
    (SetjmpSanitizer markerStart sampleModule 0).2.1.nameOf 1 = some "_safe_setjmp" :=
  sanitizer_rewrites_unsafe_calls markerStart sampleModule 0 mainFn 1 1 "_setjmp" "_safe_setjmp"
    (by decide) (by decide) (by decide) (by decide) (by decide) (by decide) (by decide)

/-- C9: when (and only when) the processed function has a setjmp-family
call site, exactly one push-marker intrinsic call is inserted, placed
after the PHI prefix of the entry block and immediately before its first
non-PHI instruction, one pop-marker call is inserted before every return,
the pushed value is the current static counter, and the counter is
decremented (with `uint64_t` wraparound) exactly once; with no
setjmp-family call site the body and the counter are untouched.  The
counter starts at `0xfffffffffffffffe` and strictly decreases while it is
positive, so successive setjmp-containing functions receive distinct,
strictly smaller markers. -/
theorem sanitizer_marker_intrinsics (marker : Nat) (M : Module) (fid : FnId) (F : Func)
    (idx : Nat)
    (hF : M.funcs[fid]? = some F) (hd : F.isDecl = false) (ha : F.returnStackAttr = true)
    (he : entryInstrIdx F = some idx) :
    (setjmpCallSites M F ≠ [] →
      ∃ bb rest, F.body = bb :: rest ∧
        (SetjmpSanitizer marker M fid).2.1.bodyOf fid =
          ⟨bb.insts.take idx ++ Instr.callPush marker :: insertPops (bb.insts.drop idx)⟩ ::
            rest.map (fun b => ⟨insertPops b.insts⟩) ∧
        (∀ i ∈ bb.insts.take idx, i.isPhi = true) ∧
        (∃ j rest2, bb.insts.drop idx = j :: rest2 ∧ j.isPhi = false) ∧
        bodyCountP Instr.isPush ((SetjmpSanitizer marker M fid).2.1.bodyOf fid) =
          bodyCountP Instr.isPush F.body + 1 ∧
        bodyCountP Instr.isPop ((SetjmpSanitizer marker M fid).2.1.bodyOf fid) =
          bodyCountP Instr.isPop F.body + bodyCountP Instr.isRet F.body ∧
        (SetjmpSanitizer marker M fid).2.2 = decMarker marker) ∧
    (setjmpCallSites M F = [] →
      (SetjmpSanitizer marker M fid).2.1.bodyOf fid = M.bodyOf fid ∧
      (SetjmpSanitizer marker M fid).2.2 = marker) ∧
    markerStart = 0xfffffffffffffffe ∧
    (∀ m, 0 < m → m < U64 → decMarker m < m) := by
  refine ⟨?_, sanitizer_body_unchanged marker M fid F idx hF hd ha he, rfl, ?_⟩
  · intro hsj
    rcases hb : F.body with _ | ⟨bb, rest⟩
    · rw [entryInstrIdx, hb] at he
      exact Option.noConfusion he
    · have hfnp : firstNonPhiIdx bb.insts = some idx := by
        rw [entryInstrIdx, hb] at he
        exact he
      obtain ⟨hle, hphis, j, rest2, hdrop, hj⟩ := firstNonPhiIdx_spec bb.insts idx hfnp
      obtain ⟨hbody, hmk⟩ := sanitizer_body_set marker M fid F idx hF hd ha he hsj
      rw [hb] at hbody
      refine ⟨bb, rest, rfl, ?_, hphis, ⟨j, rest2, hdrop, hj⟩, ?_, ?_, hmk⟩
      · rw [hbody, sanitizeBody_entry marker idx bb rest hphis]
      · rw [hbody]
        exact bodyCountP_sanitize_push marker idx bb rest
      · rw [hbody]
        exact bodyCountP_sanitize_pop marker idx bb rest
  · intro m h0 hU
    have h2 : U64 = 18446744073709551616 := by norm_num [U64]
    rw [h2] at hU
    rw [decMarker, h2]
    omega

/-- Witness for C9 on closed inputs: the sample attributed function gets
its markers and the counter drops to `0xfffffffffffffffd`, while the
longjmp-only function leaves the counter untouched. -/
theorem sanitizer_marker_intrinsics_witness :
    bodyCountP Instr.isPush ((SetjmpSanitizer markerStart sampleModule 0).2.1.bodyOf 0) =
      bodyCountP Instr.isPush mainFn.body + 1 ∧
    (SetjmpSanitizer markerStart sampleModule 0).2.2 = decMarker markerStart ∧
    (SetjmpSanitizer markerStart ljOnlyModule 0).2.2 = markerStart := by
  have h1 := sanitizer_marker_intrinsics markerStart sampleModule 0 mainFn 1
    (by decide) (by decide) (by decide) (by decide)
  have h2 := sanitizer_marker_intrinsics markerStart ljOnlyModule 0 ljOnlyFn 0
    (by decide) (by decide) (by decide) (by decide)
  obtain ⟨bb, rest, -, -, -, -, hpush, -, hmk⟩ := h1.1 (by decide)
  exact ⟨hpush, hmk, (h2.2.1 (by decide)).2⟩

/-- C10: the substitution renames the callee `Function` object itself, so
after processing one attributed function that calls an unsafe primitive,
the callee's module-level name is the safe counterpart — observed by every
call site of that callee anywhere in the module, attributed or not — no
function with the original unsafe name remains in the module, the bodies
of all other functions are untouched, and no call site to that callee is
added or removed anywhere. -/
theorem sanitizer_rename_module_wide (marker : Nat) (M : Module) (fid : FnId) (F : Func)
    (idx : Nat) (c : FnId) (n n' : String)
    (hF : M.funcs[fid]? = some F) (hd : F.isDecl = false) (ha : F.returnStackAttr = true)
    (he : entryInstrIdx F = some idx)
    (hcall : Instr.call (some c) ∈ allInsts F)
    (hn : M.nameOf c = some n) (hsub : unsafeSubst n = some n')
    (huniq : ∀ i, M.nameOf i = some n → i = c) :
    (SetjmpSanitizer marker M fid).2.1.nameOf c = some n' ∧
    (∀ i, (SetjmpSanitizer marker M fid).2.1.nameOf i ≠ some n) ∧
    (∀ g, g ≠ fid →
      ((SetjmpSanitizer marker M fid).2.1.funcs[g]?).map Func.body =
        (M.funcs[g]?).map Func.body) ∧
    (∀ g, bodyCountP (Instr.isCallTo c) ((SetjmpSanitizer marker M fid).2.1.bodyOf g) =
      bodyCountP (Instr.isCallTo c) (M.bodyOf g)) := by
  have hcore := sanitizer_rename_core marker M fid F idx c n n' hF hd ha he hcall hn hsub
  refine ⟨hcore, ?_, fun g hg => sanitizer_body_other marker M fid F idx hF hd ha he g hg, ?_⟩
  · intro i hni
    rcases sanitizer_nameOf_output marker M fid F idx hF hd ha he i with h | ⟨a, b, hab, hb⟩
    · rw [h] at hni
      have hic : i = c := huniq i hni
      subst hic
      have : some n' = some n := by rw [← hcore, h, hni]
      exact unsafeSubst_ne n n' hsub (Option.some_inj.mp this)
    · rw [hb] at hni
      rcases hab with hab | hab
      · exact (subst_output_safe a b n n' hsub).1 hab (Option.some_inj.mp hni)
      · exact (subst_output_safe a b n n' hsub).2 hab (Option.some_inj.mp hni)
  · intro g
    by_cases hg : g = fid
    · subst hg
      by_cases hsj : setjmpCallSites M F = []
      · rw [(sanitizer_body_unchanged marker M g F idx hF hd ha he hsj).1]
      · rw [(sanitizer_body_set marker M g F idx hF hd ha he hsj).1]
        have hMb : M.bodyOf g = F.body := by
          rw [Module.bodyOf, hF]
          rfl
        rw [hMb, bodyCountP_sanitizeBody (Instr.isCallTo c) rfl (fun m => rfl) marker idx F.body]
    · have hb2 := sanitizer_body_other marker M fid F idx hF hd ha he g hg
      rw [Module.bodyOf, Module.bodyOf, hb2]

/-- Witness for C10 on the sample module: after processing function 0,
the unique function named `longjmp` (index 2) is named `safe_longjmp`,
and the body of function 1 is untouched. -/
theorem sanitizer_rename_module_wide_witness :
    (SetjmpSanitizer markerStart sampleModule 0).2.1.nameOf 2 = some "safe_longjmp" ∧
    ((SetjmpSanitizer markerStart sampleModule 0).2.1.funcs[1]?).map Func.body =
      (sampleModule.funcs[1]?).map Func.body := by
  have huniq : ∀ i, sampleModule.nameOf i = some "longjmp" → i = 2 := by
    intro i h
    match i with
    | 0 => exact absurd h (by decide)
    | 1 => exact absurd h (by decide)
    | 2 => rfl
    | m + 3 =>
      have hnone : sampleModule.funcs[m + 3]? = none := by
        apply List.getElem?_eq_none
        exact Nat.le_add_left 3 m
      rw [Module.nameOf, hnone] at h
      exact Option.noConfusion h
  have h := sanitizer_rename_module_wide markerStart sampleModule 0 mainFn 1 2
    "longjmp" "safe_longjmp" (by decide) (by decide) (by decide) (by decide) (by decide)
    (by decide) (by decide) huniq
  exact ⟨h.1, h.2.2.1 1 (by decide)⟩

end RSS
